import Mathlib

/-!
Verification of the insurance fee calculator contract (src/src/lib.rs).

The contract operates on unsigned 256-bit integers (`U256`) with checked
arithmetic.  We embed `U256` values as `Nat` together with explicit checked
operations that fail (return `none`) exactly when the corresponding
`checked_*` operation of `U256` returns `None`, i.e. when the mathematical
result is `≥ 2^256` (for `add`/`mul`), when the divisor is zero (`div`), or
when the subtraction would underflow (`sub`).

Unchecked `U256` arithmetic appearing in the source (`+`, `%`, `pow`) is
embedded with its release-build wrapping semantics (`% U`) wherever an
overflow is reachable: the gate threshold `price_data_timestamp + 3600`
(the stored timestamp is caller-supplied, so it can be `2^256 - 1`) and
the `x + 1` inside `sqrt` at `x = 2^256 - 1`.  The remaining unchecked
operations cannot overflow on any reachable path and are plain `Nat`
arithmetic (each carries a comment).  An aborted
computation (a Rust panic, which in the release build arises as a division
by zero after the wrapped `x + 1`) is modelled as `none` at the outermost
`Option` layer; a `CalculationError` returned through the contract's
`Result` is the `Except.error` layer inside.
-/

namespace InsuranceCalculator

/-- The `U256` modulus: values are the naturals `< U`. -/
def U : Nat := 2 ^ 256

/-- One WAD, the fixed-point scale `1e18` used throughout the contract. -/
def WAD : Nat := 10 ^ 18

/-- `U256::checked_add`. -/
def checked_add (a b : Nat) : Option Nat :=
  if a + b < U then some (a + b) else none

/-- `U256::checked_mul`. -/
def checked_mul (a b : Nat) : Option Nat :=
  if a * b < U then some (a * b) else none

/-- `U256::checked_div`: fails only on a zero divisor. -/
def checked_div (a b : Nat) : Option Nat :=
  if b = 0 then none else some (a / b)

/-- `U256::checked_sub`: fails on underflow. -/
def checked_sub (a b : Nat) : Option Nat :=
  if b ≤ a then some (a - b) else none

/-- The contract's error enum (`CalculationError` / `InvalidInput`). -/
inductive Error
  | calculationError
  | invalidInput
  deriving DecidableEq

/-- Decidable equality for contract results, used to evaluate the model
on concrete inputs. -/
instance exceptDecEq {e a : Type} [DecidableEq e] [DecidableEq a] :
    DecidableEq (Except e a)
  | .error e1, .error e2 =>
    if h : e1 = e2 then isTrue (by rw [h])
    else isFalse (fun hc => by cases hc; exact h rfl)
  | .ok a1, .ok a2 =>
    if h : a1 = a2 then isTrue (by rw [h])
    else isFalse (fun hc => by cases hc; exact h rfl)
  | .error _, .ok _ => isFalse (fun hc => Except.noConfusion hc)
  | .ok _, .error _ => isFalse (fun hc => Except.noConfusion hc)

/-- The per-pool stored fields read or written by the algorithms
(lib.rs lines 42-53; the three reserved fields that are never read or
written are omitted). `price_history` is the 30-slot circular buffer. -/
structure PoolState where
  price_history : Fin 30 → Nat
  price_update_index : Nat
  price_data_timestamp : Nat
  historical_il : Nat

/-- A pool never touched before: every stored field is zero. -/
def freshState : PoolState :=
  { price_history := fun _ => 0
    price_update_index := 0
    price_data_timestamp := 0
    historical_il := 0 }

/-- The `while z < y` loop of `InsuranceCalculator::sqrt` (lib.rs 65-68),
with an explicit fuel argument (the loop strictly decreases `y`, so fuel
`x + 1` never runs out; see `sqrtLoop_eq`).  A zero `z` would make the
Rust expression `x / z` panic, which we model as `none`. -/
def sqrtLoop (x : Nat) : Nat → Nat → Nat → Option Nat
  | 0, _, _ => none
  | fuel + 1, z, y =>
    if z < y then
      if z = 0 then none
      else sqrtLoop x fuel ((x / z + z) / 2) z
    else some y

/-- `InsuranceCalculator::sqrt` (lib.rs 57-71): Newton's method integer
square root.  The initial `z = (x + 1) / 2` uses the unchecked `U256`
addition, which wraps at `x = 2^256 - 1` (yielding `z = 0` and a
division-by-zero panic in the first iteration; with overflow checks the
addition itself panics).  Either abort is modelled as `none`. -/
def sqrt (x : Nat) : Option Nat :=
  if x = 0 then some 0
  else sqrtLoop x (x + 1) ((x + 1) % U / 2) x

/-- `base_fee` of `calculate_insurance_fee` (lib.rs 104). -/
def base_fee : Nat := 10 ^ 15

/-- `volume_multiplier` (lib.rs 106-114).  The divisor `total_volume + 1e18`
uses the unchecked addition; it can only exceed `U` when
`total_volume * 9e17` has already overflowed, so plain addition is exact
on every path that reaches the division. -/
def volume_multiplier (total_volume : Nat) : Option Nat :=
  if 0 < total_volume then
    ((checked_mul total_volume (9 * 10 ^ 17)).bind fun v =>
      checked_div v (total_volume + WAD)).bind fun v =>
      checked_sub WAD v
  else some WAD

/-- `volatility_multiplier` (lib.rs 116-119). -/
def volatility_multiplier (volatility : Nat) : Option Nat :=
  ((checked_mul volatility 2).bind fun v =>
    checked_add WAD v).bind fun v =>
    checked_div v WAD

/-- `il_multiplier` (lib.rs 122-125). -/
def il_multiplier (historical_il : Nat) : Option Nat :=
  ((checked_mul historical_il 3).bind fun v =>
    checked_add WAD v).bind fun v =>
    checked_div v WAD

/-- `size_multiplier` (lib.rs 127-134). -/
def size_multiplier (amount total_liquidity : Nat) : Option Nat :=
  if 0 < total_liquidity then
    ((checked_mul amount WAD).bind fun v =>
      checked_div v total_liquidity).bind fun v =>
      checked_add WAD v
  else some (2 * WAD)

/-- The final fee chain of `calculate_insurance_fee` (lib.rs 136-143). -/
def combine_insurance_fee (base vm volm ilm sm : Nat) : Option Nat :=
  (((((( checked_mul base vm).bind fun v =>
    checked_mul v volm).bind fun v =>
    checked_mul v ilm).bind fun v =>
    checked_mul v sm).bind fun v =>
    checked_div v WAD).bind fun v =>
    checked_div v WAD).bind fun v =>
    checked_div v WAD

/-- The WAD-scaled absolute return of the volatility loop (lib.rs 197-205):
`|last_valid_price - historical_price| * 1e18 / historical_price`. -/
def price_return (last_valid_price historical_price : Nat) : Option Nat :=
  (checked_mul
      (if last_valid_price > historical_price
        then last_valid_price - historical_price
        else historical_price - last_valid_price)
      WAD).bind fun v =>
    checked_div v historical_price

/-- `decay_factor` (lib.rs 207-209): `95^i / 100^i` in raw integer
division.  `U256::pow` wraps modulo `2^256`, hence the explicit `% U`
(for `i < 30` both powers are below `U`, so the mod is the identity). -/
def decay_factor (i : Nat) : Option Nat :=
  checked_div (95 ^ i % U) (100 ^ i % U)

/-- One iteration of the volatility accumulation loop (lib.rs 192-221).
The accumulator is `(sum_squared_returns, valid_points, last_valid_price)`. -/
def volStep (h : Fin 30 → Nat) :
    Nat × Nat × Nat → Fin 30 → Except Error (Nat × Nat × Nat)
  | (sum_squared_returns, valid_points, last_valid_price), i =>
    if 0 < h i then
      match price_return last_valid_price (h i) with
      | none => .error .calculationError
      | some return_value =>
        match decay_factor i.val with
        | none => .error .calculationError
        | some decay =>
          match (((checked_mul return_value return_value).bind fun v =>
              checked_mul v decay).bind fun v =>
              checked_div v WAD).bind fun v =>
              checked_add sum_squared_returns v with
          | none => .error .calculationError
          | some new_sum => .ok (new_sum, valid_points + 1, h i)
    else .ok (sum_squared_returns, valid_points, last_valid_price)

/-- The `for i in 0..30` loop body with `?`-propagation of errors. -/
def accumulate_from (h : Fin 30 → Nat) :
    List (Fin 30) → Nat × Nat × Nat → Except Error (Nat × Nat × Nat)
  | [], acc => .ok acc
  | i :: rest, acc =>
    match volStep h acc i with
    | .error e => .error e
    | .ok acc' => accumulate_from h rest acc'

/-- The hourly update gate (lib.rs 175-184): when
`timestamp >= price_data_timestamp + 3600`, write `current_price` into
slot `(price_update_index + 1) % 30` and persist the new index and
timestamp; otherwise leave the state untouched.  The `U256` sum
`price_data_timestamp + 3600` is unchecked and wraps modulo `2^256`
(reachable: the stored timestamp is a caller-supplied argument of a
public method), hence the explicit `% U` in the comparison.  The index
sum `price_update_index + 1` is plain: the stored index is only ever
written as a value `< 30`. -/
def apply_gate (s : PoolState) (current_price timestamp : Nat) : PoolState :=
  if (s.price_data_timestamp + 3600) % U ≤ timestamp then
    { s with
      price_history :=
        Function.update s.price_history
          ⟨(s.price_update_index + 1) % 30, Nat.mod_lt _ (by norm_num)⟩
          current_price
      price_update_index := (s.price_update_index + 1) % 30
      price_data_timestamp := timestamp }
  else s

/-- Everything in `calculate_volatility` after the gate (lib.rs 186-242):
the accumulation scan over the (post-gate) history, the zero-history early
return, and the annualisation `sqrt(avg) * sqrt(365*24) / 1e9`.  Depends
only on the history buffer and `current_price`. -/
def volatility_result (history : Fin 30 → Nat) (current_price : Nat) :
    Option (Except Error Nat) :=
  match accumulate_from history (List.finRange 30) (0, 0, current_price) with
  | .error e => some (.error e)
  | .ok (sum_squared_returns, valid_points, _) =>
    if valid_points = 0 then some (.ok 0)
    else
      match (checked_mul sum_squared_returns WAD).bind fun v =>
          checked_div v valid_points with
      | none => some (.error .calculationError)
      | some avg_squared_return =>
        match sqrt avg_squared_return, sqrt (365 * 24) with
        | some r1, some r2 =>
          match (checked_mul r1 r2).bind fun v =>
              checked_div v (10 ^ 9) with
          | none => some (.error .calculationError)
          | some volatility => some (.ok volatility)
        | _, _ => none

/-- `calculate_volatility` (lib.rs 165-243).  Returns the contract
`Result` together with the post-call stored state; the outer `Option` is
`none` only for an aborted (panicking) computation. -/
def calculate_volatility (s : PoolState) (current_price timestamp : Nat) :
    Option (Except Error Nat × PoolState) :=
  match volatility_result (apply_gate s current_price timestamp).price_history
      current_price with
  | none => none
  | some r => some (r, apply_gate s current_price timestamp)

/-- `calculate_insurance_fee` (lib.rs 93-153), paired with the post-call
state.  `historical_il` is read after the volatility call, from the
mutated state. -/
def calculate_insurance_fee (s : PoolState)
    (amount total_liquidity total_volume current_price timestamp : Nat) :
    Option (Except Error Nat × PoolState) :=
  match calculate_volatility s current_price timestamp with
  | none => none
  | some (.error e, s1) => some (.error e, s1)
  | some (.ok volatility, s1) =>
    match volume_multiplier total_volume with
    | none => some (.error .calculationError, s1)
    | some vm =>
    match volatility_multiplier volatility with
    | none => some (.error .calculationError, s1)
    | some volm =>
    match il_multiplier s1.historical_il with
    | none => some (.error .calculationError, s1)
    | some ilm =>
    match size_multiplier amount total_liquidity with
    | none => some (.error .calculationError, s1)
    | some sm =>
    match combine_insurance_fee base_fee vm volm ilm sm with
    | none => some (.error .calculationError, s1)
    | some fee => some (.ok fee, s1)

/-- The fee component of `calculate_insurance_fee` (the contract's actual
return value, without the storage side effect). -/
def insurance_fee (s : PoolState)
    (amount total_liquidity total_volume current_price timestamp : Nat) :
    Option (Except Error Nat) :=
  (calculate_insurance_fee s amount total_liquidity total_volume
      current_price timestamp).map Prod.fst

/-- `base_fee` of `calculate_flash_loan_fee` (lib.rs 254). -/
def flash_base_fee : Nat := 5 * 10 ^ 14

/-- `utilization_multiplier` (lib.rs 257-265). -/
def utilization_multiplier (utilization_rate : Nat) : Option Nat :=
  if 0 < utilization_rate then
    ((checked_mul utilization_rate (2 * WAD)).bind fun v =>
      checked_div v WAD).bind fun v =>
      checked_add v WAD
  else some WAD

/-- `liquidity_multiplier` (lib.rs 267-277), including the
`unwrap_or(1)` fallback divisor. -/
def liquidity_multiplier (total_liquidity : Nat) : Option Nat :=
  if 0 < total_liquidity then
    ((checked_mul WAD WAD).bind fun v =>
      checked_div v ((checked_add total_liquidity WAD).getD 1)).bind
      fun liquidity_factor => checked_add WAD liquidity_factor
  else some (2 * WAD)

/-- `default_multiplier` (lib.rs 279-281). -/
def default_multiplier (default_history : Nat) : Option Nat :=
  checked_add WAD default_history

/-- The flash-loan fee-rate chain (lib.rs 284-291). -/
def flash_fee_rate (base um lm dm : Nat) : Option Nat :=
  ((((( checked_mul base um).bind fun v =>
    checked_mul v lm).bind fun v =>
    checked_mul v dm).bind fun v =>
    checked_div v WAD).bind fun v =>
    checked_div v WAD).bind fun v =>
    checked_div v WAD

/-- `calculate_flash_loan_fee` (lib.rs 246-300); pure, no state. -/
def calculate_flash_loan_fee
    (amount total_liquidity utilization_rate default_history : Nat) :
    Except Error Nat :=
  match utilization_multiplier utilization_rate with
  | none => .error .calculationError
  | some um =>
  match liquidity_multiplier total_liquidity with
  | none => .error .calculationError
  | some lm =>
  match default_multiplier default_history with
  | none => .error .calculationError
  | some dm =>
  match flash_fee_rate flash_base_fee um lm dm with
  | none => .error .calculationError
  | some fee =>
  match (checked_mul fee amount).bind fun v => checked_div v WAD with
  | none => .error .calculationError
  | some final_fee => .ok final_fee

/-- Modelled from the spec: the accumulation term as the spec words it,
`(return * return / WAD) * decay_i / WAD` — the squared return divided by
WAD twice.  Used only to compare against the term the code computes. -/
def spec_squared_term (r decay : Nat) : Nat :=
  r * r / WAD * decay / WAD

/-- One Newton step from a positive iterate never drops below the integer
square root. -/
theorem sqrt_newton_lower {x z : Nat} (hz : 0 < z) :
    Nat.sqrt x ≤ (x / z + z) / 2 := by
  rw [Nat.le_div_iff_mul_le (by norm_num : 0 < 2)]
  have hx : Nat.sqrt x * Nat.sqrt x ≤ x := Nat.sqrt_le x
  have h1 : Nat.sqrt x * Nat.sqrt x / z ≤ x / z := Nat.div_le_div_right hx
  have h2 : Nat.sqrt x * 2 ≤ Nat.sqrt x * Nat.sqrt x / z + z := by
    rcases le_or_lt (Nat.sqrt x * 2) z with hc | hc
    · exact hc.trans (Nat.le_add_left z _)
    · have key : Nat.sqrt x * 2 - z ≤ Nat.sqrt x * Nat.sqrt x / z := by
        rw [Nat.le_div_iff_mul_le hz]
        have hzle : z ≤ Nat.sqrt x * 2 := le_of_lt hc
        zify [hzle]
        nlinarith [sq_nonneg ((Nat.sqrt x : Int) - z)]
      omega
  exact h2.trans (add_le_add_right h1 z)

/-- Fuel-indexed correctness of the Newton loop: with enough fuel and the
loop invariant, the loop returns exactly `Nat.sqrt x`. -/
theorem sqrtLoop_eq (x : Nat) :
    ∀ fuel z y, y < fuel → Nat.sqrt x ≤ z → Nat.sqrt x ≤ y →
      0 < Nat.sqrt x → (y ≤ z → y ≤ Nat.sqrt x) →
      sqrtLoop x fuel z y = some (Nat.sqrt x)
  | 0, _, _, hf, _, hy, _, _ => absurd hf (by omega)
  | fuel + 1, z, y, hf, hz, hy, hs, hexit => by
    unfold sqrtLoop
    by_cases hzy : z < y
    · rw [if_pos hzy, if_neg (by omega : ¬ z = 0)]
      exact sqrtLoop_eq x fuel ((x / z + z) / 2) z (by omega)
        (sqrt_newton_lower (by omega)) hz hs
        (fun hle => by
          have h2 : z * 2 ≤ x / z + z :=
            (Nat.le_div_iff_mul_le (by norm_num : 0 < 2)).mp hle
          have h3 : z ≤ x / z := by omega
          have h4 : z * z ≤ x :=
            (Nat.le_div_iff_mul_le (by omega : 0 < z)).mp h3
          exact Nat.le_sqrt.mpr h4)
    · rw [if_neg hzy]
      have h1 : y ≤ Nat.sqrt x := hexit (by omega)
      rw [le_antisymm h1 hy]

/-- For every representable input except `2^256 - 1`, the contract's
Newton square root terminates and computes the exact integer square root. -/
theorem sqrt_eq_sqrt {x : Nat} (hx : x ≤ 2 ^ 256 - 2) :
    sqrt x = some (Nat.sqrt x) := by
  unfold sqrt
  by_cases h0 : x = 0
  · rw [if_pos h0, h0, Nat.sqrt_zero]
  · rw [if_neg h0]
    have hU : 2 ^ 256 - 2 + 2 = 2 ^ 256 := by norm_num
    have hmod : (x + 1) % U = x + 1 :=
      Nat.mod_eq_of_lt (show x + 1 < U by unfold U; omega)
    rw [hmod]
    have hs : 0 < Nat.sqrt x := Nat.sqrt_pos.mpr (by omega)
    refine sqrtLoop_eq x (x + 1) ((x + 1) / 2) x (by omega) ?_
      (Nat.sqrt_le_self x) hs ?_
    · have h1 := sqrt_newton_lower (x := x) (z := 1) (by norm_num)
      simpa using h1
    · intro hxe
      have h2 : x * 2 ≤ x + 1 :=
        (Nat.le_div_iff_mul_le (by norm_num : 0 < 2)).mp hxe
      have hx1 : x = 1 := by omega
      rw [hx1, Nat.sqrt_one]


theorem U_pos : 0 < U := by unfold U; positivity

theorem WAD_ne_zero : WAD ≠ 0 := by unfold WAD; positivity

/-- For `i < 30`, both powers in the decay factor are below the modulus. -/
theorem pow100_lt_U {i : Nat} (hi : i < 30) : 100 ^ i % U = 100 ^ i := by
  apply Nat.mod_eq_of_lt
  calc 100 ^ i ≤ 100 ^ 29 := Nat.pow_le_pow_right (by norm_num) (by omega)
    _ < U := by unfold U; norm_num

theorem pow95_lt_U {i : Nat} (hi : i < 30) : 95 ^ i % U = 95 ^ i := by
  apply Nat.mod_eq_of_lt
  calc 95 ^ i ≤ 95 ^ 29 := Nat.pow_le_pow_right (by norm_num) (by omega)
    _ < U := by unfold U; norm_num

/-- The decay computation succeeds on every in-range index. -/
theorem decay_factor_eq {i : Nat} (hi : i < 30) :
    decay_factor i = some (95 ^ i / 100 ^ i) := by
  unfold decay_factor checked_div
  rw [pow100_lt_U hi, pow95_lt_U hi,
    if_neg (Nat.pos_iff_ne_zero.mp (Nat.pos_pow_of_pos i (by norm_num)))]

/-- `95^i / 100^i = 0` for every `1 ≤ i`. -/
theorem decay_factor_zero {i : Nat} (hi : i < 30) (h1 : 0 < i) :
    decay_factor i = some 0 := by
  rw [decay_factor_eq hi, Nat.div_eq_of_lt]
  exact Nat.pow_lt_pow_left (by norm_num) (by omega)

/-- A zero-price slot leaves the accumulator untouched. -/
theorem volStep_zero (h : Fin 30 → Nat) (acc : Nat × Nat × Nat) (i : Fin 30)
    (h0 : h i = 0) : volStep h acc i = .ok acc := by
  obtain ⟨a, b, c⟩ := acc
  simp [volStep, h0]

/-- A slot holding exactly the running `last_valid_price` contributes a
zero return: the sum stays, `valid_points` increments. -/
theorem volStep_self (h : Fin 30 → Nat) (i : Fin 30) (n cp : Nat)
    (hcp : 0 < cp) (hi : h i = cp) :
    volStep h (0, n, cp) i = .ok (0, n + 1, cp) := by
  have hr : price_return cp cp = some 0 := by
    unfold price_return checked_mul checked_div
    simp [hcp, Nat.lt_irrefl, Nat.sub_self, U_pos, Nat.pos_iff_ne_zero.mp hcp]
  have hd := decay_factor_eq i.isLt
  simp only [volStep, hi, if_pos hcp, hr, hd]
  unfold checked_mul checked_div checked_add
  simp [U_pos, WAD_ne_zero]

/-- Scanning a buffer whose nonzero slots all hold `cp`, starting from
`last_valid_price = cp`, keeps the sum at zero and counts the nonzero
slots. -/
theorem accumulate_const (h : Fin 30 → Nat) (cp : Nat)
    (hh : ∀ i, h i = 0 ∨ h i = cp) :
    ∀ (l : List (Fin 30)) (n : Nat),
      accumulate_from h l (0, n, cp) =
        .ok (0, n + l.countP (fun i => h i != 0), cp)
  | [], n => by simp [accumulate_from]
  | i :: l, n => by
    rcases hh i with h0 | hcp
    · rw [accumulate_from, volStep_zero h _ i h0]
      show accumulate_from h l (0, n, cp) = _
      rw [accumulate_const h cp hh l n]
      simp [List.countP_cons, h0]
    · by_cases hz : cp = 0
      · rw [accumulate_from, volStep_zero h _ i (by omega)]
        show accumulate_from h l (0, n, cp) = _
        rw [accumulate_const h cp hh l n]
        simp [List.countP_cons, hcp, hz]
      · rw [accumulate_from, volStep_self h i n cp (by omega) hcp]
        show accumulate_from h l (0, n + 1, cp) = _
        rw [accumulate_const h cp hh l (n + 1)]
        have hne : h i ≠ 0 := by omega
        simp [List.countP_cons, hne]
        omega

theorem sqrt_zero : sqrt 0 = some 0 := rfl

theorem sqrt_annual : sqrt (365 * 24) = some 93 := by decide


/-- If the scan left the sum at zero, the tail of `volatility_result`
always returns `ok 0`: the average is zero and the annualisation of a
zero standard deviation is zero. -/
theorem volatility_result_of_zero_sum (h : Fin 30 → Nat) (cp : Nat)
    (hacc : accumulate_from h (List.finRange 30) (0, 0, cp) =
      .ok (0, (List.finRange 30).countP (fun i => h i != 0), cp)) :
    volatility_result h cp = some (.ok 0) := by
  by_cases hc : (List.finRange 30).countP (fun i => h i != 0) = 0
  · simp only [volatility_result, hacc]
    simp [hc]
  · simp only [volatility_result, hacc]
    rw [if_neg hc]
    have havg : (checked_mul 0 WAD).bind
        (fun v => checked_div v ((List.finRange 30).countP
          (fun i => h i != 0))) = some 0 := by
      unfold checked_mul checked_div
      simp [U_pos, hc, Nat.zero_div]
    have hmul : (checked_mul 0 93).bind (fun v => checked_div v (10 ^ 9)) =
        some 0 := by
      unfold checked_mul checked_div
      simp [U_pos, Nat.zero_div]
    rw [havg]
    simp only [sqrt_zero, sqrt_annual, hmul]



/-- The gate leaves `historical_il` alone. -/
theorem apply_gate_il (s : PoolState) (cp t : Nat) :
    (apply_gate s cp t).historical_il = s.historical_il := by
  unfold apply_gate
  split <;> rfl

/-- Overwriting `historical_il` leaves the history untouched. -/
theorem setIl_price_history (p : PoolState) (il : Nat) :
    ({ p with historical_il := il }).price_history = p.price_history := rfl

/-- A closed gate (timestamp below the wrapped threshold) writes
nothing. -/
theorem apply_gate_closed {s : PoolState} {cp t : Nat}
    (h : t < (s.price_data_timestamp + 3600) % U) : apply_gate s cp t = s := by
  unfold apply_gate
  rw [if_neg (by omega)]

/-- Every non-aborting call returns exactly the post-gate state. -/
theorem calculate_volatility_state {s : PoolState} {cp t : Nat}
    {res : Except Error Nat × PoolState}
    (h : calculate_volatility s cp t = some res) :
    res.2 = apply_gate s cp t := by
  unfold calculate_volatility at h
  cases hres : volatility_result (apply_gate s cp t).price_history cp with
  | none => rw [hres] at h; exact absurd h (by simp)
  | some r =>
    rw [hres] at h
    simp only [Option.some.injEq] at h
    rw [← h]

/-- After the gate, a history that was all zeros holds at most the single
freshly written `current_price`. -/
theorem apply_gate_zero_history (s : PoolState) (cp t : Nat)
    (hzero : ∀ i, s.price_history i = 0) :
    ∀ i, (apply_gate s cp t).price_history i = 0 ∨
      (apply_gate s cp t).price_history i = cp := by
  intro i
  unfold apply_gate
  split
  · dsimp only
    rw [Function.update_apply]
    split
    · right; rfl
    · left; exact hzero i
  · left; exact hzero i

/-- A buffer with a single nonzero slot has scan count 1. -/
theorem countP_single (h : Fin 30 → Nat) (k : Fin 30) (hk : h k ≠ 0)
    (hrest : ∀ i, i ≠ k → h i = 0) :
    (List.finRange 30).countP (fun i => h i != 0) = 1 := by
  have hcong : ∀ i ∈ List.finRange 30,
      ((h i != 0) = true ↔ (i == k) = true) := by
    intro i _
    by_cases hik : i = k
    · subst hik; simp [hk]
    · simp [hrest i hik, hik]
  rw [List.countP_congr hcong]
  rw [← List.count]
  exact List.count_eq_one_of_mem (List.nodup_finRange 30) (List.mem_finRange k)

/-- C4: a pool whose stored `price_history` is all zeros yields
volatility 0 from `calculate_volatility`, for every `current_price` and
every `timestamp` — including timestamps where the hourly gate fires and
writes `current_price` into the buffer before the scan. -/
theorem C4_zero_history : ∀ (s : PoolState) (cp t : Nat),
    (∀ i, s.price_history i = 0) →
    ∃ s1, calculate_volatility s cp t = some (.ok 0, s1) := by
  intro s cp t hzero
  have hh := apply_gate_zero_history s cp t hzero
  have hacc := accumulate_const (apply_gate s cp t).price_history cp hh
    (List.finRange 30) 0
  have hres := volatility_result_of_zero_sum (apply_gate s cp t).price_history
    cp (by simpa using hacc)
  refine ⟨apply_gate s cp t, ?_⟩
  unfold calculate_volatility
  rw [hres]

/-- C4 witness: a fresh pool at the first gate firing. -/
theorem C4_witness :
    (∀ i, freshState.price_history i = 0) ∧
    ∃ s1, calculate_volatility freshState (5 * 10 ^ 18) 3600 =
      some (.ok 0, s1) :=
  ⟨fun _ => rfl, C4_zero_history freshState (5 * 10 ^ 18) 3600 fun _ => rfl⟩

/-- C5 counterexample: with the stored `price_data_timestamp` at
`2^256 - 1` (reachable, since the timestamp written by the gate is a
caller-supplied argument), a call at `timestamp = 3599` satisfies
`timestamp < price_data_timestamp + 3600`, yet the unchecked `U256` sum
wraps to 3599, the gate fires, and the call overwrites
`price_data_timestamp` with 3599 — a storage write, refuting the claim
as stated. -/
theorem C5_counterexample :
    3599 < (2 ^ 256 - 1) + 3600 ∧
    (calculate_volatility
        { freshState with price_data_timestamp := 2 ^ 256 - 1 } 5 3599).map
      (fun r => r.2.price_data_timestamp) = some 3599 ∧
    (2 : Nat) ^ 256 - 1 ≠ 3599 :=
  ⟨by norm_num, by decide, by decide⟩

/-- C5 amended: a call with `timestamp` below the wrapped threshold
`(price_data_timestamp + 3600) % 2^256` — the comparison the code
actually performs, which coincides with `price_data_timestamp + 3600`
whenever that sum does not overflow — leaves `price_history`,
`price_update_index` and `price_data_timestamp` unchanged: no storage
writes happen. -/
theorem C5_amended_frame : ∀ (s : PoolState) (cp t : Nat),
    t < (s.price_data_timestamp + 3600) % U →
    ∀ res, calculate_volatility s cp t = some res →
      res.2.price_history = s.price_history ∧
      res.2.price_update_index = s.price_update_index ∧
      res.2.price_data_timestamp = s.price_data_timestamp := by
  intro s cp t hgate res hres
  have h1 := calculate_volatility_state hres
  rw [apply_gate_closed hgate] at h1
  rw [h1]
  exact ⟨rfl, rfl, rfl⟩

/-- C5 witness: a fresh pool queried before an hour has elapsed. -/
theorem C5_witness :
    (0 < (freshState.price_data_timestamp + 3600) % U) ∧
    calculate_volatility freshState 7 0 =
      some ((Except.ok 0 : Except Error Nat), freshState) ∧
    (((Except.ok 0 : Except Error Nat),
        freshState).2.price_history = freshState.price_history ∧
      ((Except.ok 0 : Except Error Nat),
        freshState).2.price_update_index = freshState.price_update_index ∧
      ((Except.ok 0 : Except Error Nat),
        freshState).2.price_data_timestamp = freshState.price_data_timestamp) :=
  ⟨by decide, rfl,
    C5_amended_frame freshState 7 0 (by decide)
      ((Except.ok 0 : Except Error Nat), freshState) rfl⟩

/-- C10: when the hourly gate fires on an otherwise all-zero buffer, the
scan of the same call reads the post-update buffer: the slot
`(price_update_index + 1) % 30` holds `current_price`, the scan counts
exactly one valid point with a zero return (sum 0), and the call returns
volatility 0 with the updated state. -/
theorem C10_gate_scan : ∀ (s : PoolState) (cp t : Nat),
    s.price_data_timestamp + 3600 ≤ t → (∀ i, s.price_history i = 0) →
    0 < cp →
    (apply_gate s cp t).price_history
        ⟨(s.price_update_index + 1) % 30, Nat.mod_lt _ (by norm_num)⟩ = cp ∧
    accumulate_from (apply_gate s cp t).price_history (List.finRange 30)
        (0, 0, cp) = .ok (0, 1, cp) ∧
    calculate_volatility s cp t = some (.ok 0, apply_gate s cp t) := by
  intro s cp t hgate hzero hcp
  have hph : (apply_gate s cp t).price_history =
      Function.update s.price_history
        ⟨(s.price_update_index + 1) % 30, Nat.mod_lt _ (by norm_num)⟩ cp := by
    unfold apply_gate
    rw [if_pos (le_trans (Nat.mod_le _ _) hgate)]
  have hslot : (apply_gate s cp t).price_history
      ⟨(s.price_update_index + 1) % 30, Nat.mod_lt _ (by norm_num)⟩ = cp := by
    rw [hph, Function.update_same]
  have hcount : (List.finRange 30).countP
      (fun i => (apply_gate s cp t).price_history i != 0) = 1 := by
    apply countP_single _ ⟨(s.price_update_index + 1) % 30,
      Nat.mod_lt _ (by norm_num)⟩
    · rw [hslot]; omega
    · intro i hik
      rw [hph, Function.update_noteq hik]
      exact hzero i
  have hh := apply_gate_zero_history s cp t hzero
  have hacc := accumulate_const (apply_gate s cp t).price_history cp hh
    (List.finRange 30) 0
  rw [hcount] at hacc
  have hacc1 : accumulate_from (apply_gate s cp t).price_history
      (List.finRange 30) (0, 0, cp) = .ok (0, 1, cp) := by
    simpa using hacc
  refine ⟨hslot, hacc1, ?_⟩
  have hres := volatility_result_of_zero_sum (apply_gate s cp t).price_history
    cp (by rw [hacc1, hcount])
  unfold calculate_volatility
  rw [hres]

/-- C10 witness: a fresh pool, `current_price = 3`, `timestamp = 3600`. -/
theorem C10_witness :
    (freshState.price_data_timestamp + 3600 ≤ 3600) ∧
    (∀ i, freshState.price_history i = 0) ∧ (0 < 3) ∧
    ((apply_gate freshState 3 3600).price_history
        ⟨(freshState.price_update_index + 1) % 30,
          Nat.mod_lt _ (by norm_num)⟩ = 3 ∧
      accumulate_from (apply_gate freshState 3 3600).price_history
        (List.finRange 30) (0, 0, 3) = .ok (0, 1, 3) ∧
      calculate_volatility freshState 3 3600 =
        some (.ok 0, apply_gate freshState 3 3600)) :=
  ⟨by decide, fun _ => rfl, by norm_num,
    C10_gate_scan freshState 3 3600 (by decide) (fun _ => rfl) (by norm_num)⟩


/-- `volStep` only ever signals `CalculationError`. -/
theorem volStep_error (h : Fin 30 → Nat) (acc : Nat × Nat × Nat) (i : Fin 30)
    (e : Error) (hstep : volStep h acc i = .error e) :
    e = .calculationError := by
  obtain ⟨a, b, c⟩ := acc
  simp only [volStep] at hstep
  split at hstep
  · split at hstep
    · injection hstep with h1
      exact h1.symm
    · split at hstep
      · injection hstep with h1
        exact h1.symm
      · split at hstep
        · injection hstep with h1
          exact h1.symm
        · exact Except.noConfusion hstep
  · exact Except.noConfusion hstep

/-- The scan only ever signals `CalculationError`. -/
theorem accumulate_from_error (h : Fin 30 → Nat) :
    ∀ (l : List (Fin 30)) (acc : Nat × Nat × Nat) (e : Error),
      accumulate_from h l acc = .error e → e = .calculationError
  | [], acc, e, hacc => absurd hacc (by simp [accumulate_from])
  | i :: l, acc, e, hacc => by
    rw [accumulate_from] at hacc
    split at hacc
    · next e1 heq =>
      injection hacc with h2
      rw [h2] at heq
      exact volStep_error h acc i e heq
    · next acc1 heq =>
      exact accumulate_from_error h l acc1 e hacc

/-- `volatility_result` only ever signals `CalculationError`. -/
theorem volatility_result_error (h : Fin 30 → Nat) (cp : Nat) (e : Error)
    (hres : volatility_result h cp = some (.error e)) :
    e = .calculationError := by
  unfold volatility_result at hres
  split at hres
  · next e1 heq =>
    simp only [Option.some.injEq, Except.error.injEq] at hres
    rw [← hres]
    exact accumulate_from_error h (List.finRange 30) (0, 0, cp) e1 heq
  · next sum valid last heq =>
    split at hres
    · simp at hres
    · split at hres
      · simp only [Option.some.injEq, Except.error.injEq] at hres
        exact hres.symm
      · next avg havg =>
        split at hres
        · next r1 r2 h1 h2 =>
          split at hres
          · simp only [Option.some.injEq, Except.error.injEq] at hres
            exact hres.symm
          · simp at hres
        · simp at hres


/-- The argument to the outer `sqrt` call can never be `2^256 - 1`: it is
`(sum * WAD) / valid` with `sum * WAD < 2^256`, and `2^256 - 1` is odd
while every multiple of WAD is even. -/
theorem avg_le (sum valid avg : Nat) (hval : valid ≠ 0)
    (havg : ((checked_mul sum WAD).bind fun v => checked_div v valid) =
      some avg) : avg ≤ 2 ^ 256 - 2 := by
  rw [Option.bind_eq_some] at havg
  obtain ⟨m, hm, hdiv⟩ := havg
  unfold checked_mul at hm
  split at hm
  · next hlt =>
    injection hm with hm1
    unfold checked_div at hdiv
    rw [if_neg hval] at hdiv
    injection hdiv with hdiv1
    unfold U at hlt
    by_cases hv1 : valid = 1
    · rw [hv1, Nat.div_one] at hdiv1
      have heven : 2 ∣ sum * WAD :=
        dvd_mul_of_dvd_right (by unfold WAD; norm_num) sum
      rw [hm1] at heven
      omega
    · have h2 : 2 ≤ valid := by omega
      have hle : m / valid ≤ m / 2 := Nat.div_le_div_left h2 (by norm_num)
      have h3 : m / 2 ≤ (2 ^ 256 - 1) / 2 := Nat.div_le_div_right (by omega)
      have h4 : ((2:Nat) ^ 256 - 1) / 2 ≤ 2 ^ 256 - 2 := by norm_num
      omega
  · exact Option.noConfusion hm


/-- The volatility estimator never aborts: every reachable `sqrt`
argument stays below `2^256 - 1`. -/
theorem volatility_result_ne_none (h : Fin 30 → Nat) (cp : Nat) :
    volatility_result h cp ≠ none := by
  unfold volatility_result
  split
  · simp
  · next sum valid last heq =>
    split
    · simp
    · next hv =>
      cases havg : (checked_mul sum WAD).bind fun v => checked_div v valid with
      | none => simp [havg]
      | some avg =>
        have hle := avg_le sum valid avg hv havg
        simp only [sqrt_eq_sqrt hle, sqrt_annual]
        split
        · simp
        · simp

/-- `calculate_volatility` never aborts. -/
theorem calculate_volatility_ne_none (s : PoolState) (cp t : Nat) :
    calculate_volatility s cp t ≠ none := by
  unfold calculate_volatility
  cases hres : volatility_result (apply_gate s cp t).price_history cp with
  | none =>
    exact absurd hres
      (volatility_result_ne_none (apply_gate s cp t).price_history cp)
  | some r => simp [hres]


theorem checked_mul_eq_some {a b v : Nat} :
    checked_mul a b = some v ↔ a * b < U ∧ a * b = v := by
  unfold checked_mul
  split <;> simp_all

theorem checked_add_eq_some {a b v : Nat} :
    checked_add a b = some v ↔ a + b < U ∧ a + b = v := by
  unfold checked_add
  split <;> simp_all

theorem checked_div_eq_some {a b v : Nat} :
    checked_div a b = some v ↔ b ≠ 0 ∧ a / b = v := by
  unfold checked_div
  split <;> simp_all

/-- A successfully computed utilization multiplier is at least one WAD. -/
theorem utilization_multiplier_ge {ur um : Nat}
    (h : utilization_multiplier ur = some um) : WAD ≤ um := by
  unfold utilization_multiplier at h
  split at h
  · rw [Option.bind_eq_some] at h
    obtain ⟨v, hv, hadd⟩ := h
    rw [checked_add_eq_some] at hadd
    omega
  · injection h with h1
    omega

/-- A successfully computed liquidity multiplier is at least one WAD. -/
theorem liquidity_multiplier_ge {tl lm : Nat}
    (h : liquidity_multiplier tl = some lm) : WAD ≤ lm := by
  unfold liquidity_multiplier at h
  split at h
  · rw [Option.bind_eq_some] at h
    obtain ⟨v, hv, hadd⟩ := h
    rw [checked_add_eq_some] at hadd
    omega
  · injection h with h1
    unfold WAD at h1 ⊢
    omega

/-- A successfully computed default multiplier is at least one WAD. -/
theorem default_multiplier_ge {dh dm : Nat}
    (h : default_multiplier dh = some dm) : WAD ≤ dm := by
  unfold default_multiplier at h
  rw [checked_add_eq_some] at h
  omega

/-- With all three multipliers at least one WAD, the flash fee rate is at
least the base fee. -/
theorem flash_fee_rate_ge {um lm dm fee : Nat} (hum : WAD ≤ um)
    (hlm : WAD ≤ lm) (hdm : WAD ≤ dm)
    (h : flash_fee_rate flash_base_fee um lm dm = some fee) :
    5 * 10 ^ 14 ≤ fee := by
  unfold flash_fee_rate at h
  simp only [Option.bind_eq_some] at h
  obtain ⟨v5, ⟨v4, ⟨v3, ⟨v2, ⟨v1, h1, h2⟩, h3⟩, h4⟩, h5⟩, h6⟩ := h
  rw [checked_mul_eq_some] at h1 h2 h3
  rw [checked_div_eq_some] at h4 h5 h6
  have hb1 : 5 * 10 ^ 14 * WAD ≤ v1 := by
    rw [← h1.2]
    unfold flash_base_fee
    exact Nat.mul_le_mul_left _ hum
  have hb2 : 5 * 10 ^ 14 * WAD * WAD ≤ v2 := by
    rw [← h2.2]
    exact Nat.mul_le_mul hb1 hlm
  have hb3 : 5 * 10 ^ 14 * WAD * WAD * WAD ≤ v3 := by
    rw [← h3.2]
    exact Nat.mul_le_mul hb2 hdm
  have hb4 : 5 * 10 ^ 14 * WAD * WAD ≤ v4 := by
    rw [← h4.2]
    calc 5 * 10 ^ 14 * WAD * WAD
        = 5 * 10 ^ 14 * WAD * WAD * WAD / WAD := by
          rw [Nat.mul_div_cancel _ (by unfold WAD; norm_num)]
      _ ≤ v3 / WAD := Nat.div_le_div_right hb3
  have hb5 : 5 * 10 ^ 14 * WAD ≤ v5 := by
    rw [← h5.2]
    calc 5 * 10 ^ 14 * WAD
        = 5 * 10 ^ 14 * WAD * WAD / WAD := by
          rw [Nat.mul_div_cancel _ (by unfold WAD; norm_num)]
      _ ≤ v4 / WAD := Nat.div_le_div_right hb4
  rw [← h6.2]
  calc 5 * 10 ^ 14
      = 5 * 10 ^ 14 * WAD / WAD := by
        rw [Nat.mul_div_cancel _ (by unfold WAD; norm_num)]
    _ ≤ v5 / WAD := Nat.div_le_div_right hb5

/-- A flash loan of the maximal representable amount always fails with
`CalculationError`: whenever the rate computation succeeds, the rate is
at least 2, so scaling by `2^256 - 1` overflows. -/
theorem flash_loan_fee_max_amount (tl ur dh : Nat) :
    calculate_flash_loan_fee (2 ^ 256 - 1) tl ur dh =
      .error .calculationError := by
  unfold calculate_flash_loan_fee
  cases hum : utilization_multiplier ur with
  | none => rfl
  | some um =>
    simp only [hum]
    cases hlm : liquidity_multiplier tl with
    | none => rfl
    | some lm =>
      simp only [hlm]
      cases hdm : default_multiplier dh with
      | none => rfl
      | some dm =>
        simp only [hdm]
        cases hfee : flash_fee_rate flash_base_fee um lm dm with
        | none => rfl
        | some fee =>
          simp only [hfee]
          have hge := flash_fee_rate_ge (utilization_multiplier_ge hum)
            (liquidity_multiplier_ge hlm) (default_multiplier_ge hdm) hfee
          have hnone : checked_mul fee (2 ^ 256 - 1) = none := by
            unfold checked_mul
            rw [if_neg]
            have h2 : 2 * (2 ^ 256 - 1) ≤ fee * (2 ^ 256 - 1) :=
              Nat.mul_le_mul_right _ (by omega)
            unfold U
            omega
          rw [hnone]
          rfl


/-- An erroring volatility call always carries `CalculationError`. -/
theorem calculate_volatility_only_calc_error (s : PoolState) (cp t : Nat)
    (e : Error) (s1 : PoolState)
    (h : calculate_volatility s cp t = some (.error e, s1)) :
    e = .calculationError := by
  unfold calculate_volatility at h
  cases hres : volatility_result (apply_gate s cp t).price_history cp with
  | none => rw [hres] at h; exact Option.noConfusion h
  | some r =>
    rw [hres] at h
    simp only [Option.some.injEq, Prod.mk.injEq] at h
    exact volatility_result_error _ cp e (h.1 ▸ hres)

/-- With a positive pool liquidity, an insurance-fee call for the maximal
representable amount always fails with `CalculationError`: the size
multiplier computes `amount * 1e18`, which overflows. -/
theorem insurance_fee_max_amount (s : PoolState) (tl tv cp t : Nat)
    (htl : 0 < tl) :
    ∃ s1, calculate_insurance_fee s (2 ^ 256 - 1) tl tv cp t =
      some (.error .calculationError, s1) := by
  have hsm : size_multiplier (2 ^ 256 - 1) tl = none := by
    unfold size_multiplier
    rw [if_pos htl]
    have hnone : checked_mul (2 ^ 256 - 1) WAD = none := by
      unfold checked_mul
      rw [if_neg]
      have h2 : (2 ^ 256 - 1) * 2 ≤ (2 ^ 256 - 1) * WAD :=
        Nat.mul_le_mul_left _ (by unfold WAD; norm_num)
      unfold U
      omega
    rw [hnone]
    rfl
  cases hv : calculate_volatility s cp t with
  | none => exact absurd hv (calculate_volatility_ne_none s cp t)
  | some r =>
    obtain ⟨rr, s1⟩ := r
    cases rr with
    | error e =>
      have he := calculate_volatility_only_calc_error s cp t e s1 hv
      subst he
      refine ⟨s1, ?_⟩
      unfold calculate_insurance_fee
      rw [hv]
    | ok v =>
      refine ⟨s1, ?_⟩
      unfold calculate_insurance_fee
      simp only [hv]
      cases hvm : volume_multiplier tv with
      | none => simp [hvm]
      | some vm =>
        simp only [hvm]
        cases hvolm : volatility_multiplier v with
        | none => simp [hvolm]
        | some volm =>
          simp only [hvolm]
          cases hilm : il_multiplier s1.historical_il with
          | none => simp [hilm]
          | some ilm =>
            simp only [hilm, hsm]


/-- With the liquidity multiplier at its maximal-liquidity value
`1e18 + 1e36` (the `unwrap_or(1)` fallback divisor), the rate chain
overflows: `base * um * lm * dm` is at least `5e86 > 2^256 - 1`. -/
theorem flash_fee_rate_max_liquidity (um dm : Nat) (hum : WAD ≤ um)
    (hdm : WAD ≤ dm) :
    flash_fee_rate flash_base_fee um (WAD + WAD * WAD) dm = none := by
  unfold flash_fee_rate
  cases h1 : checked_mul flash_base_fee um with
  | none => simp [h1]
  | some v1 =>
    have hv1 : 5 * 10 ^ 14 * WAD ≤ v1 := by
      rw [checked_mul_eq_some] at h1
      rw [← h1.2]
      unfold flash_base_fee
      exact Nat.mul_le_mul_left _ hum
    cases h2 : checked_mul v1 (WAD + WAD * WAD) with
    | none => simp [h1, h2]
    | some v2 =>
      have hv2 : 5 * 10 ^ 14 * WAD * (WAD * WAD) ≤ v2 := by
        rw [checked_mul_eq_some] at h2
        rw [← h2.2]
        exact Nat.mul_le_mul hv1 (Nat.le_add_left _ _)
      have h3 : checked_mul v2 dm = none := by
        have hprod : 5 * 10 ^ 14 * WAD * (WAD * WAD) * WAD ≤ v2 * dm :=
          Nat.mul_le_mul hv2 hdm
        have hbig : U ≤ 5 * 10 ^ 14 * WAD * (WAD * WAD) * WAD := by
          unfold U WAD
          norm_num
        unfold checked_mul
        rw [if_neg (by omega)]
      simp [h1, h2, h3]

/-- A flash loan against the maximal representable pool liquidity always
fails with `CalculationError`: the overflowing `checked_add` falls back
to divisor 1, the liquidity multiplier becomes `1e18 + 1e36`, and the
rate chain then overflows. -/
theorem flash_loan_fee_max_liquidity (a ur dh : Nat) :
    calculate_flash_loan_fee a (2 ^ 256 - 1) ur dh =
      .error .calculationError := by
  unfold calculate_flash_loan_fee
  cases hum : utilization_multiplier ur with
  | none => rfl
  | some um =>
    simp only [hum]
    have hlm : liquidity_multiplier (2 ^ 256 - 1) =
        some (WAD + WAD * WAD) := by decide
    simp only [hlm]
    cases hdm : default_multiplier dh with
    | none => rfl
    | some dm =>
      simp only [hdm]
      rw [flash_fee_rate_max_liquidity um dm (utilization_multiplier_ge hum)
        (default_multiplier_ge hdm)]

/-- C3 counterexample: with `total_liquidity = 0` the insurance fee never
reads `amount`, so the maximal representable amount yields an ordinary
numeric fee (here 0), not a `CalculationError`, refuting the claim as
stated. -/
theorem C3_counterexample :
    insurance_fee freshState (2 ^ 256 - 1) 0 0 0 0 = some (.ok 0) := by
  rfl

/-- C3 amended: `calculate_flash_loan_fee` always yields
`CalculationError` when `amount = 2^256 - 1` and also when
`total_liquidity = 2^256 - 1`; `calculate_insurance_fee` yields
`CalculationError` for `amount = 2^256 - 1` whenever
`total_liquidity > 0`, but with `total_liquidity = 0` the amount is
unused, and a maximal `total_liquidity` does not force an insurance
error (the final conjunct: `amount = 0` against maximal liquidity
returns an ordinary fee). -/
theorem C3_amended :
    (∀ tl ur dh, calculate_flash_loan_fee (2 ^ 256 - 1) tl ur dh =
      .error .calculationError) ∧
    (∀ a ur dh, calculate_flash_loan_fee a (2 ^ 256 - 1) ur dh =
      .error .calculationError) ∧
    (∀ (s : PoolState) (tl tv cp t : Nat), 0 < tl →
      ∃ s1, calculate_insurance_fee s (2 ^ 256 - 1) tl tv cp t =
        some (.error .calculationError, s1)) ∧
    insurance_fee freshState 0 (2 ^ 256 - 1) 0 0 0 = some (.ok 0) :=
  ⟨flash_loan_fee_max_amount, flash_loan_fee_max_liquidity,
    insurance_fee_max_amount, by decide⟩

/-- C3 witness: the amended branches at concrete inputs. -/
theorem C3_witness :
    ((0:Nat) < 1) ∧
    calculate_flash_loan_fee (2 ^ 256 - 1) 0 0 0 =
      .error .calculationError ∧
    calculate_flash_loan_fee 0 (2 ^ 256 - 1) 0 0 =
      .error .calculationError ∧
    ∃ s1, calculate_insurance_fee freshState (2 ^ 256 - 1) 1 0 0 0 =
      some (.error .calculationError, s1) :=
  ⟨by norm_num, C3_amended.1 0 0 0, C3_amended.2.1 0 0 0,
    C3_amended.2.2.1 freshState 1 0 0 0 (by norm_num)⟩


/-- C6: the flash-loan scenario `amount = 1e18`, `total_liquidity = 0`,
`utilization_rate = 0`, `default_history = 0` gives multipliers
`1e18`, `2e18`, `1e18` and a final fee of `1e15` (0.1% of the amount). -/
theorem C6_flash_scenario :
    utilization_multiplier 0 = some (10 ^ 18) ∧
    liquidity_multiplier 0 = some (2 * 10 ^ 18) ∧
    default_multiplier 0 = some (10 ^ 18) ∧
    calculate_flash_loan_fee (10 ^ 18) 0 0 0 = .ok (10 ^ 15) :=
  ⟨rfl, rfl, rfl, rfl⟩

/-- C7 counterexample: at the maximal representable input the unchecked
`x + 1` wraps to zero, the first Newton iterate is zero, and the loop
divides by zero — the call aborts instead of returning a floor square
root, refuting the claim for every `U256` input. -/
theorem C7_counterexample : sqrt (2 ^ 256 - 1) = none := by decide

/-- C7 amended: `sqrt 0 = 0`, and for every input other than
`2^256 - 1` the Newton iteration returns the exact floor square root:
`r * r ≤ x < (r + 1) * (r + 1)`. -/
theorem C7_amended :
    sqrt 0 = some 0 ∧
    ∀ x, x < 2 ^ 256 - 1 →
      ∃ r, sqrt x = some r ∧ r * r ≤ x ∧ x < (r + 1) * (r + 1) :=
  ⟨rfl, fun x hx =>
    ⟨Nat.sqrt x, sqrt_eq_sqrt (by omega), Nat.sqrt_le x, Nat.lt_succ_sqrt x⟩⟩

/-- C7 witness: the amended theorem at `x = 10`. -/
theorem C7_witness :
    (10 < 2 ^ 256 - 1) ∧
    ∃ r, sqrt 10 = some r ∧ r * r ≤ 10 ∧ 10 < (r + 1) * (r + 1) :=
  ⟨by norm_num, C7_amended.2 10 (by norm_num)⟩

/-- C9: the integer decay factor `95^i / 100^i` is 1 at `i = 0` and 0 for
every `i` in `1..=29`; the decay computation never fails; and for
`i ≥ 1` a successful loop step leaves `sum_squared_returns` unchanged,
so only slot 0 can contribute a nonzero term. -/
theorem C9_decay :
    decay_factor 0 = some 1 ∧
    (∀ i, i < 30 → 0 < i → decay_factor i = some 0) ∧
    (∀ i, i < 30 → decay_factor i ≠ none) ∧
    (∀ (h : Fin 30 → Nat) (sum n last sum' n' last' : Nat) (i : Fin 30),
      0 < i.val → volStep h (sum, n, last) i = .ok (sum', n', last') →
      sum' = sum) := by
  refine ⟨rfl, ?_, ?_, ?_⟩
  · intro i h30 h0
    exact decay_factor_zero h30 h0
  · intro i h30
    rw [decay_factor_eq h30]
    simp
  · intro h sum n last sum' n' last' i hi hstep
    by_cases hp : 0 < h i
    · cases hrv : price_return last (h i) with
      | none =>
        simp only [volStep, if_pos hp, hrv] at hstep
        exact Except.noConfusion hstep
      | some rv =>
        simp only [volStep, if_pos hp, hrv,
          decay_factor_zero i.isLt hi] at hstep
        split at hstep
        · exact Except.noConfusion hstep
        · next ns hns =>
          injection hstep with h1
          rw [Prod.mk.injEq, Prod.mk.injEq] at h1
          simp only [Option.bind_eq_some] at hns
          obtain ⟨v3, ⟨v2, ⟨v1, hm1, hm2⟩, hdv⟩, hadd⟩ := hns
          rw [checked_mul_eq_some] at hm1 hm2
          rw [checked_div_eq_some] at hdv
          rw [checked_add_eq_some] at hadd
          have hv2 : v2 = 0 := by omega
          have hv3 : v3 = 0 := by
            rw [← hdv.2, hv2]
            exact Nat.zero_div _
          omega
    · simp only [volStep, if_neg hp] at hstep
      injection hstep with h1
      rw [Prod.mk.injEq, Prod.mk.injEq] at h1
      omega

/-- C9 witness: a step at slot 1 with a nonzero price adds nothing. -/
theorem C9_witness :
    (0 < (1:Nat)) ∧
    volStep (fun _ => 5) (7, 0, 5) ⟨1, by norm_num⟩ = .ok (7, 1, 5) ∧
    (7:Nat) = 7 := by
  have hstep : volStep (fun _ => 5) (7, 0, 5) ⟨1, Nat.succ_lt_succ
      (Nat.succ_pos 28)⟩ = .ok (7, 1, 5) := by decide
  refine ⟨by norm_num, by decide, ?_⟩
  exact C9_decay.2.2.2 (fun _ => 5) 7 0 5 7 1 5
    ⟨1, Nat.succ_lt_succ (Nat.succ_pos 28)⟩ (by decide) hstep

/-- C2 counterexample: a slot with a 100% WAD-scaled return and decay 1
adds `1e18` to the sum (one WAD division), while the spec's formula
`(return * return / WAD) * decay / WAD` gives 1 — they differ. -/
theorem C2_counterexample :
    volStep (fun _ => 10 ^ 18) (0, 0, 2 * 10 ^ 18) ⟨0, by norm_num⟩ =
      .ok (10 ^ 18, 1, 10 ^ 18) ∧
    spec_squared_term (10 ^ 18) 1 = 1 ∧ (10 ^ 18 : Nat) ≠ 1 :=
  ⟨by decide, by decide, by norm_num⟩

/-- C2 amended: for every buffer slot with a nonzero stored price, the
amount a successful loop step adds to `sum_squared_returns` equals
`return * return * decay_i / WAD` — the squared return is divided by WAD
once, not twice. -/
theorem C2_amended : ∀ (h : Fin 30 → Nat) (sum n last : Nat) (i : Fin 30)
    (rv d sum' n' last' : Nat),
    0 < h i →
    price_return last (h i) = some rv →
    decay_factor i.val = some d →
    volStep h (sum, n, last) i = .ok (sum', n', last') →
    sum' = sum + rv * rv * d / WAD := by
  intro h sum n last i rv d sum' n' last' hp hrv hd hstep
  simp only [volStep, if_pos hp, hrv, hd] at hstep
  split at hstep
  · exact Except.noConfusion hstep
  · next ns hns =>
    injection hstep with h1
    rw [Prod.mk.injEq, Prod.mk.injEq] at h1
    simp only [Option.bind_eq_some] at hns
    obtain ⟨v3, ⟨v2, ⟨v1, hm1, hm2⟩, hdv⟩, hadd⟩ := hns
    rw [checked_mul_eq_some] at hm1 hm2
    rw [checked_div_eq_some] at hdv
    rw [checked_add_eq_some] at hadd
    rw [← h1.1, ← hadd.2, ← hdv.2, ← hm2.2, ← hm1.2]

/-- C2 witness: the amended statement at the counterexample's slot. -/
theorem C2_witness :
    (0 < (10:Nat) ^ 18) ∧
    price_return (2 * 10 ^ 18) (10 ^ 18) = some (10 ^ 18) ∧
    decay_factor 0 = some 1 ∧
    (10 ^ 18 : Nat) = 0 + 10 ^ 18 * 10 ^ 18 * 1 / WAD := by
  refine ⟨by norm_num, by decide, by decide, ?_⟩
  have hp : (0:Nat) < 10 ^ 18 := by norm_num
  have hrv : price_return (2 * 10 ^ 18) (10 ^ 18) = some (10 ^ 18) := by
    decide
  have hd : decay_factor 0 = some 1 := by decide
  have hstep : volStep (fun _ => 10 ^ 18) (0, 0, 2 * 10 ^ 18)
      ⟨0, Nat.succ_pos 29⟩ = .ok (10 ^ 18, 1, 10 ^ 18) := by decide
  exact C2_amended (fun _ => 10 ^ 18) 0 0 (2 * 10 ^ 18) ⟨0, Nat.succ_pos 29⟩
    (10 ^ 18) 1 (10 ^ 18) 1 (10 ^ 18) hp hrv hd hstep

/-- C1: evaluating the code at the spec scenario (`historical_il = 0`,
`total_volume = 0`, `total_liquidity = 1e18`, `amount = 1e18`, fresh
pool, `timestamp = 3600`, `current_price = 2000e18`): the code divides
the volatility and IL multipliers by WAD early, so they are 1 rather
than the claimed `1e18`, and the returned fee is 0 rather than the
claimed `2e15`. -/
theorem C1_code_eval :
    volume_multiplier 0 = some (10 ^ 18) ∧
    volatility_multiplier 0 = some 1 ∧
    il_multiplier 0 = some 1 ∧
    size_multiplier (10 ^ 18) (10 ^ 18) = some (2 * 10 ^ 18) ∧
    insurance_fee freshState (10 ^ 18) (10 ^ 18) 0 (2000 * 10 ^ 18) 3600 =
      some (.ok 0) :=
  ⟨rfl, rfl, rfl, rfl, by decide⟩


/-- The gate commutes with overwriting `historical_il` (which it never
reads or writes). -/
theorem apply_gate_setIl (s : PoolState) (il cp t : Nat) :
    apply_gate { s with historical_il := il } cp t =
      { apply_gate s cp t with historical_il := il } := by
  cases s with
  | mk ph idx ts il0 =>
    unfold apply_gate
    by_cases hgate : (ts + 3600) % U ≤ t
    · simp only [hgate, if_pos]
    · simp only [hgate, if_neg, not_false_iff]

/-- `calculate_volatility` neither reads nor writes `historical_il`. -/
theorem calculate_volatility_setIl (s : PoolState) (il cp t : Nat) :
    calculate_volatility { s with historical_il := il } cp t =
      (calculate_volatility s cp t).map
        (fun r => (r.1, { r.2 with historical_il := il })) := by
  unfold calculate_volatility
  rw [apply_gate_setIl]
  rw [setIl_price_history (apply_gate s cp t) il]
  cases volatility_result (apply_gate s cp t).price_history cp with
  | none => rfl
  | some r => rfl


/-- Characterization of a successful insurance-fee computation: every
multiplier succeeded and the fee is their combination. -/
theorem insurance_fee_ok (s : PoolState) (amount tl tv cp t f : Nat)
    (hok : insurance_fee s amount tl tv cp t = some (.ok f)) :
    ∃ v s1 vm volm ilm sm,
      calculate_volatility s cp t = some (.ok v, s1) ∧
      volume_multiplier tv = some vm ∧
      volatility_multiplier v = some volm ∧
      il_multiplier s1.historical_il = some ilm ∧
      size_multiplier amount tl = some sm ∧
      combine_insurance_fee base_fee vm volm ilm sm = some f := by
  unfold insurance_fee calculate_insurance_fee at hok
  cases hv : calculate_volatility s cp t with
  | none => rw [hv] at hok; exact Option.noConfusion hok
  | some r =>
    obtain ⟨rr, s1⟩ := r
    cases rr with
    | error e => simp [hv] at hok
    | ok v =>
      simp only [hv] at hok
      cases hvm : volume_multiplier tv with
      | none => simp [hvm] at hok
      | some vm =>
        simp only [hvm] at hok
        cases hvolm : volatility_multiplier v with
        | none => simp [hvolm] at hok
        | some volm =>
          simp only [hvolm] at hok
          cases hilm : il_multiplier s1.historical_il with
          | none => simp [hilm] at hok
          | some ilm =>
            simp only [hilm] at hok
            cases hsm : size_multiplier amount tl with
            | none => simp [hsm] at hok
            | some sm =>
              simp only [hsm] at hok
              cases hcomb : combine_insurance_fee base_fee vm volm ilm sm with
              | none => simp [hcomb] at hok
              | some fee =>
                simp only [hcomb, Option.map_some', Except.ok.injEq,
                  Option.some.injEq] at hok
                subst hok
                exact ⟨v, s1, vm, volm, ilm, sm, rfl, rfl, hvolm, hilm, rfl,
                  hcomb⟩


/-- A successful fee combination equals the plain arithmetic chain. -/
theorem combine_insurance_fee_eq (b m1 m2 m3 m4 f : Nat)
    (h : combine_insurance_fee b m1 m2 m3 m4 = some f) :
    f = b * m1 * m2 * m3 * m4 / WAD / WAD / WAD := by
  unfold combine_insurance_fee at h
  simp only [Option.bind_eq_some] at h
  obtain ⟨v6, ⟨v5, ⟨v4, ⟨v3, ⟨v2, ⟨v1, h1, h2⟩, h3⟩, h4⟩, h5⟩, h6⟩, h7⟩ := h
  rw [checked_mul_eq_some] at h1 h2 h3 h4
  rw [checked_div_eq_some] at h5 h6 h7
  rw [← h7.2, ← h6.2, ← h5.2, ← h4.2, ← h3.2, ← h2.2, ← h1.2]

/-- A successful IL multiplier is `(WAD + 3 * il) / WAD`. -/
theorem il_multiplier_eq (il m : Nat) (h : il_multiplier il = some m) :
    m = (WAD + il * 3) / WAD := by
  unfold il_multiplier at h
  simp only [Option.bind_eq_some] at h
  obtain ⟨v2, ⟨v1, h1, h2⟩, h3⟩ := h
  rw [checked_mul_eq_some] at h1
  rw [checked_add_eq_some] at h2
  rw [checked_div_eq_some] at h3
  rw [← h3.2, ← h2.2, ← h1.2]

/-- The IL multiplier is monotone in the stored IL. -/
theorem il_multiplier_mono (il1 il2 m1 m2 : Nat) (hle : il1 ≤ il2)
    (h1 : il_multiplier il1 = some m1) (h2 : il_multiplier il2 = some m2) :
    m1 ≤ m2 := by
  rw [il_multiplier_eq il1 m1 h1, il_multiplier_eq il2 m2 h2]
  have hmul : il1 * 3 ≤ il2 * 3 := Nat.mul_le_mul_right 3 hle
  exact Nat.div_le_div_right (by omega)

/-- A successful size multiplier over positive liquidity is
`WAD + amount * WAD / total_liquidity`. -/
theorem size_multiplier_eq (amount tl m : Nat) (htl : 0 < tl)
    (h : size_multiplier amount tl = some m) :
    m = WAD + amount * WAD / tl := by
  unfold size_multiplier at h
  rw [if_pos htl] at h
  simp only [Option.bind_eq_some] at h
  obtain ⟨v2, ⟨v1, h1, h2⟩, h3⟩ := h
  rw [checked_mul_eq_some] at h1
  rw [checked_div_eq_some] at h2
  rw [checked_add_eq_some] at h3
  rw [← h3.2, ← h2.2, ← h1.2]

/-- The size multiplier is monotone in the trade amount. -/
theorem size_multiplier_mono (a1 a2 tl m1 m2 : Nat) (hle : a1 ≤ a2)
    (h1 : size_multiplier a1 tl = some m1)
    (h2 : size_multiplier a2 tl = some m2) : m1 ≤ m2 := by
  by_cases htl : 0 < tl
  · rw [size_multiplier_eq a1 tl m1 htl h1, size_multiplier_eq a2 tl m2 htl h2]
    have hm : a1 * WAD ≤ a2 * WAD := Nat.mul_le_mul_right WAD hle
    have hd : a1 * WAD / tl ≤ a2 * WAD / tl := Nat.div_le_div_right hm
    omega
  · unfold size_multiplier at h1 h2
    rw [if_neg htl] at h1 h2
    injection h1 with h1
    injection h2 with h2
    omega

/-- The combined fee is monotone in the IL multiplier slot. -/
theorem combine_insurance_fee_mono_ilm (b m1 m2 m3 m3' m4 f f' : Nat)
    (hle : m3 ≤ m3')
    (h : combine_insurance_fee b m1 m2 m3 m4 = some f)
    (h' : combine_insurance_fee b m1 m2 m3' m4 = some f') : f ≤ f' := by
  rw [combine_insurance_fee_eq b m1 m2 m3 m4 f h,
    combine_insurance_fee_eq b m1 m2 m3' m4 f' h']
  have hmul : b * m1 * m2 * m3 * m4 ≤ b * m1 * m2 * m3' * m4 :=
    Nat.mul_le_mul_right m4 (Nat.mul_le_mul_left _ hle)
  exact Nat.div_le_div_right (Nat.div_le_div_right
    (Nat.div_le_div_right hmul))

/-- The combined fee is monotone in the size multiplier slot. -/
theorem combine_insurance_fee_mono_sm (b m1 m2 m3 m4 m4' f f' : Nat)
    (hle : m4 ≤ m4')
    (h : combine_insurance_fee b m1 m2 m3 m4 = some f)
    (h' : combine_insurance_fee b m1 m2 m3 m4' = some f') : f ≤ f' := by
  rw [combine_insurance_fee_eq b m1 m2 m3 m4 f h,
    combine_insurance_fee_eq b m1 m2 m3 m4' f' h']
  have hmul : b * m1 * m2 * m3 * m4 ≤ b * m1 * m2 * m3 * m4' :=
    Nat.mul_le_mul_left _ hle
  exact Nat.div_le_div_right (Nat.div_le_div_right
    (Nat.div_le_div_right hmul))


/-- C8: for fixed other parameters, an insurance fee returned by two
successful calls is non-decreasing in the stored `historical_il` and in
`amount`; and for positive liquidity the size multiplier term is
non-increasing in `total_liquidity` (holding `amount` fixed). -/
theorem C8_monotonicity :
    (∀ (s : PoolState) (a tl tv cp t il1 il2 f1 f2 : Nat), il1 ≤ il2 →
      insurance_fee { s with historical_il := il1 } a tl tv cp t =
        some (.ok f1) →
      insurance_fee { s with historical_il := il2 } a tl tv cp t =
        some (.ok f2) → f1 ≤ f2) ∧
    (∀ (s : PoolState) (a1 a2 tl tv cp t f1 f2 : Nat), a1 ≤ a2 →
      insurance_fee s a1 tl tv cp t = some (.ok f1) →
      insurance_fee s a2 tl tv cp t = some (.ok f2) → f1 ≤ f2) ∧
    (∀ (a tl1 tl2 m1 m2 : Nat), 0 < tl1 → tl1 ≤ tl2 →
      size_multiplier a tl1 = some m1 → size_multiplier a tl2 = some m2 →
      m2 ≤ m1) := by
  refine ⟨?_, ?_, ?_⟩
  · intro s a tl tv cp t il1 il2 f1 f2 hle hee1 hee2
    obtain ⟨v1, s1, vm1, volm1, ilm1, sm1, hv1, hvm1, hvolm1, hilm1, hsm1,
      hc1⟩ := insurance_fee_ok _ _ _ _ _ _ _ hee1
    obtain ⟨v2, s2, vm2, volm2, ilm2, sm2, hv2, hvm2, hvolm2, hilm2, hsm2,
      hc2⟩ := insurance_fee_ok _ _ _ _ _ _ _ hee2
    rw [calculate_volatility_setIl] at hv1 hv2
    cases hb : calculate_volatility s cp t with
    | none => rw [hb] at hv1; exact Option.noConfusion hv1
    | some rb =>
      obtain ⟨rr, sb⟩ := rb
      rw [hb] at hv1 hv2
      simp only [Option.map_some'] at hv1 hv2
      injection hv1 with hv1'
      injection hv2 with hv2'
      rw [Prod.mk.injEq] at hv1' hv2'
      have hvv : v1 = v2 := by
        have e2 := hv2'.1
        rw [hv1'.1] at e2
        exact Except.ok.inj e2
      subst hvv
      have hvmm : vm1 = vm2 := by
        rw [hvm1] at hvm2
        injection hvm2
      subst hvmm
      have hvolmm : volm1 = volm2 := by
        rw [hvolm1] at hvolm2
        injection hvolm2
      subst hvolmm
      have hsmm : sm1 = sm2 := by
        rw [hsm1] at hsm2
        injection hsm2
      subst hsmm
      have hilm1' : il_multiplier il1 = some ilm1 := by
        rw [← hv1'.2] at hilm1
        exact hilm1
      have hilm2' : il_multiplier il2 = some ilm2 := by
        rw [← hv2'.2] at hilm2
        exact hilm2
      exact combine_insurance_fee_mono_ilm base_fee vm1 volm1 ilm1 ilm2 sm1
        f1 f2 (il_multiplier_mono il1 il2 ilm1 ilm2 hle hilm1' hilm2') hc1 hc2
  · intro s a1 a2 tl tv cp t f1 f2 hle hee1 hee2
    obtain ⟨v1, s1, vm1, volm1, ilm1, sm1, hv1, hvm1, hvolm1, hilm1, hsm1,
      hc1⟩ := insurance_fee_ok _ _ _ _ _ _ _ hee1
    obtain ⟨v2, s2, vm2, volm2, ilm2, sm2, hv2, hvm2, hvolm2, hilm2, hsm2,
      hc2⟩ := insurance_fee_ok _ _ _ _ _ _ _ hee2
    rw [hv1] at hv2
    injection hv2 with hv2'
    rw [Prod.mk.injEq] at hv2'
    have hvv : v1 = v2 := Except.ok.inj hv2'.1
    subst hvv
    have hss : s1 = s2 := hv2'.2
    subst hss
    have hvmm : vm1 = vm2 := by
      rw [hvm1] at hvm2
      injection hvm2
    subst hvmm
    have hvolmm : volm1 = volm2 := by
      rw [hvolm1] at hvolm2
      injection hvolm2
    subst hvolmm
    have hilmm : ilm1 = ilm2 := by
      rw [hilm1] at hilm2
      injection hilm2
    subst hilmm
    exact combine_insurance_fee_mono_sm base_fee vm1 volm1 ilm1 sm1 sm2
      f1 f2 (size_multiplier_mono a1 a2 tl sm1 sm2 hle hsm1 hsm2) hc1 hc2
  · intro a tl1 tl2 m1 m2 htl1 hle h1 h2
    rw [size_multiplier_eq a tl1 m1 htl1 h1,
      size_multiplier_eq a tl2 m2 (by omega) h2]
    have hd : a * WAD / tl2 ≤ a * WAD / tl1 := Nat.div_le_div_left hle htl1
    omega

/-- C8 witness: the three parts at concrete successful calls. -/
theorem C8_witness :
    ((0:Nat) ≤ 10 ^ 18) ∧
    insurance_fee { freshState with historical_il := 0 }
      (10 ^ 18) (10 ^ 18) 0 0 0 = some (.ok 0) ∧
    insurance_fee { freshState with historical_il := 10 ^ 18 }
      (10 ^ 18) (10 ^ 18) 0 0 0 = some (.ok 0) ∧
    ((0:Nat) ≤ 0) := by
  refine ⟨by norm_num, by decide, by decide, ?_⟩
  exact C8_monotonicity.1 freshState (10 ^ 18) (10 ^ 18) 0 0 0 0 (10 ^ 18)
    0 0 (by norm_num) (by decide) (by decide)

end InsuranceCalculator
